import Mathlib

/-!
Verification development for the `rpn` CLI RPN calculator (marcopaganini/rpn).

The development shallowly embeds the decimal-based evaluation engine:

* `decimal.go` (the current, five-argument `formatNumber` version):
  `formatNumber`, `commafWithDigits`, `stripTrailingDigits`.
* `operations.go` (the decimal `ophandler` version): the `operation`
  dispatcher and the arithmetic operation handlers whose semantics are
  exactly representable over `ℚ`.
* `stack.go` / `main.go`: the stack structure with its `save`/`restore`
  snapshot mechanism and the per-line token-processing loop.

Go's `decimal.Big` (ericlagergren/decimal with `decimal.Context128`:
34 significant digits, round-half-even) is modelled by the type `Big`
below: a finite arbitrary-precision value is an exact rational together
with re-rounding to 34 significant digits after every arithmetic
operation (`roundSig`); the special values ±Infinity and NaN are
explicit constructors.  Negative zero is not distinguished from zero;
none of the verified properties depend on it.

Machine integers: non-decimal literals and base conversion use Go
`uint64`; they are modelled as `Nat` with explicit `< 2^64` range checks,
exactly where the Go code checks `Uint64()` conversions.
-/

/-! ## Rounding to 34 significant digits (decimal.Context128) -/

/-- Number of decimal digits of a natural number (`digitCount 0 = 1`).
Used to locate the most significant digit when rounding to 34
significant digits, mirroring the precision handling of
`decimal.Context128` in the Go decimal library. -/
def digitCount (n : Nat) : Nat :=
  if h : n < 10 then 1
  else digitCount (n / 10) + 1
decreasing_by
  exact Nat.div_lt_self (by omega) (by omega)

/-- Round-half-even of a rational to an integer, the rounding mode of
`decimal.Context128` (`ToNearestEven`). -/
def rne (x : ℚ) : ℤ :=
  if x - ⌊x⌋ < 1/2 then ⌊x⌋
  else if 1/2 < x - ⌊x⌋ then ⌊x⌋ + 1
  else if Even ⌊x⌋ then ⌊x⌋ else ⌊x⌋ + 1

/-- Decimal exponent of a nonzero rational: the unique `e` with
`10^e ≤ |q| < 10^(e+1)`.  (Returns a junk value at `0`.) -/
def decExp (q : ℚ) : ℤ :=
  if 1 ≤ |q| then (digitCount (Int.toNat ⌊|q|⌋) : ℤ) - 1
  else
    if 1 ≤ |q| * 10 ^ (digitCount (Int.toNat ⌊|q|⁻¹⌋) - 1) then
      -((digitCount (Int.toNat ⌊|q|⁻¹⌋) - 1 : ℕ) : ℤ)
    else -((digitCount (Int.toNat ⌊|q|⁻¹⌋) - 1 : ℕ) : ℤ) - 1

/-- Rounding of a rational to 34 significant decimal digits,
round-half-even: the re-rounding applied by every arithmetic primitive
of the Go engine (`decimal.WithContext(decimal.Context128)`). -/
def roundSig (q : ℚ) : ℚ :=
  if q = 0 then 0
  else (rne (q * 10 ^ (33 - decExp q)) : ℚ) / 10 ^ (33 - decExp q)

/-- Truncation of a rational toward zero (`math.Trunc` / GDA `remainder`
truncated quotient). -/
def truncQ (q : ℚ) : ℤ :=
  if 0 ≤ q then ⌊q⌋ else ⌈q⌉

/-! ## Digit strings -/

/-- Digit character for a value `< 16`, lowercase (Go `%b`, `%o`, `%x`
verbs print lowercase digits). -/
def digitChar (d : Nat) : Char :=
  if d < 10 then Char.ofNat ('0'.toNat + d)
  else Char.ofNat ('a'.toNat + (d - 10))

/-- Big-endian list of base-`b` digit values of `n` (empty for `n = 0`). -/
def natToBaseCore (b : Nat) (n : Nat) : List Nat :=
  if _h : b ≤ 1 then []
  else if _h0 : n = 0 then []
  else natToBaseCore b (n / b) ++ [n % b]
decreasing_by
  exact Nat.div_lt_self (by omega) (by omega)

/-- Base-`b` rendering of `n` as characters, as printed by Go's
`fmt.Sprintf` integer verbs (`%b`, `%o`, `%x`, `%d`): big-endian,
lowercase, and `"0"` for zero. -/
def natToBase (b : Nat) (n : Nat) : List Char :=
  if n = 0 then ['0'] else (natToBaseCore b n).map digitChar

/-- Numeric value of a digit character under base `b` (accepting both
lowercase and uppercase hex digits, like Go's `strconv.ParseUint`). -/
def parseDigitChar (b : Nat) (c : Char) : Option Nat :=
  let v : Option Nat :=
    if '0' ≤ c ∧ c ≤ '9' then some (c.toNat - '0'.toNat)
    else if 'a' ≤ c ∧ c ≤ 'f' then some (c.toNat - 'a'.toNat + 10)
    else if 'A' ≤ c ∧ c ≤ 'F' then some (c.toNat - 'A'.toNat + 10)
    else none
  match v with
  | some d => if d < b then some d else none
  | none => none

/-- Unsigned base-`b` integer parser modelling Go's
`strconv.ParseUint(s, b, 64)`: rejects the empty string, any character
that is not a digit of base `b`, and any value not representable in an
unsigned 64-bit integer. -/
def parseUintCore (b : Nat) (cs : List Char) : Option Nat :=
  if cs = [] then none
  else
    match cs.foldl
      (fun acc c => acc.bind fun a => (parseDigitChar b c).map fun d => a * b + d)
      (some 0) with
    | some v => if v < 2 ^ 64 then some v else none
    | none => none

/-- Character predicate for ASCII decimal digits. -/
def isDigit09 (c : Char) : Bool :=
  '0' ≤ c ∧ c ≤ '9'

/-- Value of a nonempty string of ASCII decimal digits. -/
def decDigitsVal (cs : List Char) : Nat :=
  cs.foldl (fun a c => a * 10 + (c.toNat - '0'.toNat)) 0

/-- Decimal-literal parser: an optional leading `-`, an integer part and
an optional fractional part, at least one digit overall.  This models
the base-10 fallback of the literal parser (Go `big().SetString`) on the
plain literals the specification describes; the exact rational value is
returned (every literal exercised here is short enough to be exactly
representable at the engine's 34-digit working precision). -/
def parseDecL (s : List Char) : Option ℚ :=
  let (neg, t) := match s with
    | '-' :: r => (true, r)
    | _ => (false, s)
  let intPart := t.takeWhile fun c => isDigit09 c
  let rest := t.drop intPart.length
  let mag : Option ℚ :=
    match rest with
    | [] => if intPart = [] then none else some ((decDigitsVal intPart : ℚ))
    | '.' :: fr =>
        if fr.all (fun c => isDigit09 c) ∧ (intPart ≠ [] ∨ fr ≠ []) then
          some ((decDigitsVal intPart : ℚ) + (decDigitsVal fr : ℚ) / 10 ^ fr.length)
        else none
    | _ => none
  mag.map fun m => if neg then -m else m

/-! ## The decimal value type -/

/-- Model of `*decimal.Big`: an exact rational for finite values, plus
the sentinel states ±Infinity and NaN (`inf true` is `-Infinity`). -/
inductive Big where
  | num (q : ℚ)
  | inf (neg : Bool)
  | nan
deriving DecidableEq, Repr

deriving instance DecidableEq for Except

/-- Go `n.Signbit()` (negative zero is not modelled; see header). -/
def Big.signbit : Big → Bool
  | .num q => q < 0
  | .inf neg => neg
  | .nan => false

/-- Go `n.IsInt()`: true exactly for finite integral values. -/
def Big.isInt : Big → Bool
  | .num q => q.den = 1
  | _ => false

/-- Go `n.Uint64()`: the value as a `uint64` when it is finite,
integral and in range; `none` models the `ok = false` result. -/
def uint64OfQ (q : ℚ) : Option Nat :=
  if q.den = 1 ∧ 0 ≤ q.num ∧ q.num < 2 ^ 64 then some q.num.toNat else none

/-- Go `ctx.Floor(z, x)`: floor, re-rounded to the working precision. -/
def floorB : Big → Big
  | .num q => .num (roundSig (⌊q⌋ : ℚ))
  | .inf b => .inf b
  | .nan => .nan

/-- Go `big().Add(x, y)` under `Context128` (GDA special-value rules). -/
def addB : Big → Big → Big
  | .nan, _ => .nan
  | _, .nan => .nan
  | .inf s, .inf t => if s = t then .inf s else .nan
  | .inf s, .num _ => .inf s
  | .num _, .inf t => .inf t
  | .num a, .num b => .num (roundSig (a + b))

/-- Go `big().Sub(x, y)` under `Context128`. -/
def subB : Big → Big → Big
  | .nan, _ => .nan
  | _, .nan => .nan
  | .inf s, .inf t => if s = t then .nan else .inf s
  | .inf s, .num _ => .inf s
  | .num _, .inf t => .inf !t
  | .num a, .num b => .num (roundSig (a - b))

/-- Go `big().Mul(x, y)` under `Context128` (0 × ∞ = NaN). -/
def mulB : Big → Big → Big
  | .nan, _ => .nan
  | _, .nan => .nan
  | .inf s, .inf t => .inf (s != t)
  | .inf s, .num b => if b = 0 then .nan else .inf (xor s (decide (b < 0)))
  | .num a, .inf t => if a = 0 then .nan else .inf (xor t (decide (a < 0)))
  | .num a, .num b => .num (roundSig (a * b))

/-- Go `ctx.Quo(z, x, y)`: division under `Context128`.  Division by
zero yields signed Infinity, `0/0` yields NaN (the GDA rules the
specification describes). -/
def quoB : Big → Big → Big
  | .nan, _ => .nan
  | _, .nan => .nan
  | .inf _, .inf _ => .nan
  | .inf s, .num b => .inf (xor s (decide (b < 0)))
  | .num _, .inf _ => .num 0
  | .num a, .num b =>
      if b = 0 then (if a = 0 then .nan else .inf (decide (a < 0)))
      else .num (roundSig (a / b))

/-- Go `ctx.Rem(z, x, y)`: remainder of truncated division (GDA). -/
def remB : Big → Big → Big
  | .nan, _ => .nan
  | _, .nan => .nan
  | .inf _, _ => .nan
  | .num _, .inf _ => .nan
  | .num a, .num b =>
      if b = 0 then .nan
      else .num (roundSig (a - b * (truncQ (a / b) : ℚ)))

/-- Go `a.Neg(a)` (negation is exact at the working precision). -/
def negB : Big → Big
  | .num q => .num (-q)
  | .inf b => .inf !b
  | .nan => .nan

/-! ## String helpers (decimal.go) -/

/-- Go `strings.TrimRight(s, string(c))`: remove every trailing
occurrence of the character `c`. -/
def trimRightChar (s : List Char) (c : Char) : List Char :=
  (s.reverse.dropWhile fun d => d = c).reverse

/-- Go `fmt.Sprintf("%.<d>f", v)` for a finite decimal value: fixed
`d` fractional digits, round-half-even at the working rounding mode,
with a leading minus sign for negative values. -/
def fmtF (q : ℚ) (d : Nat) : List Char :=
  let sign : List Char := if q < 0 then ['-'] else []
  let N : Nat := (rne (|q| * 10 ^ d)).toNat
  let ds := natToBase 10 N
  if d = 0 then sign ++ ds
  else
    let p := List.replicate (d + 1 - ds.length) '0' ++ ds
    sign ++ p.take (p.length - d) ++ '.' :: p.drop (p.length - d)

/-- `stripTrailingDigits` from `decimal.go`: remove insignificant zeros
after the period (and a bare trailing period), then truncate the
fractional part to at most `digits` digits. -/
def stripTrailingDigits (s : List Char) (digits : Nat) : List Char :=
  let s1 :=
    if s.contains '.' then trimRightChar (trimRightChar s '0') '.'
    else s
  match s1.findIdx? fun c => c = '.' with
  | none => s1
  | some i =>
      if digits = 0 then s1.take i
      else if s1.length ≤ i + 1 + digits then s1
      else s1.take (i + 1 + digits)

/-- The triple-plus-comma loop body of `commafWithDigits`: writes each
group of three digits followed by a comma.  (The Go loop is only ever
entered with a multiple-of-three number of remaining digits; the final
catch-all case is unreachable there.) -/
def chunks3 : List Char → List Char
  | [] => []
  | a :: b :: c :: rest => a :: b :: c :: ',' :: chunks3 rest
  | l => l ++ [',']

/-- `commafWithDigits` from `decimal.go` (current version): digit-grouped
base-10 rendering.  The Go function copies its argument
(`big().Copy(n)`), so it has no effect on the value passed in. -/
def commafWithDigits (q : ℚ) (decimals : Nat) : List Char :=
  let sign : List Char := if q < 0 then ['-'] else []
  let a := |q|
  let parts := (fmtF a decimals).splitOn '.'
  let p0 := parts.headD []
  let firstLen := p0.length % 3
  let grouped :=
    ((if firstLen ≠ 0 then p0.take firstLen ++ [','] else []) ++
      chunks3 (p0.drop firstLen)).dropLast
  let withFrac :=
    if 1 < parts.length then grouped ++ '.' :: parts.getD 1 []
    else grouped
  stripTrailingDigits (sign ++ withFrac) decimals

/-- The error string `formatNumber` returns when the magnitude does not
fit in an unsigned 64-bit integer. -/
def invalidUint64Msg : String :=
  "Invalid number: non decimal base only supports uint64 numbers."

/-- `formatNumber` from `decimal.go` (current version, with the `single`
single-shot flag).  The Go function takes `n *decimal.Big` and mutates
the pointed-to value in its non-base-10 path (`n.SetSignbit(false)`,
`ctx.Floor(n, n)`); the embedding therefore returns both the rendered
string and the final value of the argument.  The Go `if base != 10`
guard block and the subsequent `switch base` are merged into one
conditional structure with identical semantics (for `base ∈ {2,8,16}`
the switch arms, otherwise the default decimal arm over the possibly
mutated value). -/
def formatNumber (n : Big) (base decimals : Nat) (single : Bool) :
    String × Big :=
  match n with
  | .nan => ("NaN", n)
  | .inf neg => (if neg then "-Infinity" else "Infinity", n)
  | .num q0 =>
    let clean := stripTrailingDigits (fmtF q0 decimals) decimals
    if base ≠ 10 then
      let buf : List Char := if q0 < 0 then ['-'] else []
      let q1 : ℚ := if q0 < 0 then -q0 else q0
      let suffix : List Char :=
        if q1.den ≠ 1 then " (truncated from ".data ++ clean ++ [')'] else []
      let q2 : ℚ := if q1.den ≠ 1 then roundSig (⌊q1⌋ : ℚ) else q1
      match uint64OfQ q2 with
      | none => (invalidUint64Msg, .num q2)
      | some n64 =>
        if base = 2 then
          (String.mk (buf ++ '0' :: 'b' :: natToBase 2 n64 ++ suffix), .num q2)
        else if base = 8 then
          (String.mk (buf ++ '0' :: natToBase 8 n64 ++ suffix), .num q2)
        else if base = 16 then
          (String.mk (buf ++ '0' :: 'x' :: natToBase 16 n64 ++ suffix), .num q2)
        else
          let h := commafWithDigits q2 decimals
          let suffix2 :=
            if h ≠ clean ∧ single = false then ' ' :: '(' :: h ++ [')'] else suffix
          (String.mk (buf ++ clean ++ suffix2), .num q2)
    else
      let h := commafWithDigits q0 decimals
      let suffix : List Char :=
        if h ≠ clean ∧ single = false then ' ' :: '(' :: h ++ [')'] else []
      (String.mk (clean ++ suffix), .num q0)

/-! ## The numeric-literal parser `atof`

Modelled from the spec: the current `atof` of `main.go` is not among the
provided sources (only earlier revisions of it and the tests that
exercise it are), so the definition below follows §4.5 of the
specification: `0b`/`0B` selects base 2, `0x`/`0X` selects base 16, a
leading `0` or `o` not followed by `.` selects base 8 (all parsed as
unsigned 64-bit integers), and everything else is a decimal literal with
an optional leading `-` and fractional part.  The length guards (`> 2`
for a two-character prefix, `> 1` for a one-character prefix) follow the
earlier in-repo revisions of `atof`.  Error messages are abstracted to
fixed strings. -/

/-- Prefix test on character lists (Go `strings.HasPrefix`). -/
def startsWithL (p s : List Char) : Bool :=
  p.isPrefixOf s

/-- Modelled from the spec: numeric-literal parser `atof` (see section
header above). -/
def atofL (s : List Char) : Except String Big :=
  if (startsWithL ['0', 'b'] s ∨ startsWithL ['0', 'B'] s) ∧ 2 < s.length then
    match parseUintCore 2 (s.drop 2) with
    | some n => .ok (.num n)
    | none => .error "invalid binary literal"
  else if (startsWithL ['0', 'x'] s ∨ startsWithL ['0', 'X'] s) ∧ 2 < s.length then
    match parseUintCore 16 (s.drop 2) with
    | some n => .ok (.num n)
    | none => .error "invalid hexadecimal literal"
  else if (startsWithL ['0'] s ∨ startsWithL ['o'] s) ∧ 1 < s.length ∧
      s.getD 1 ' ' ≠ '.' then
    match parseUintCore 8 (s.drop 1) with
    | some n => .ok (.num n)
    | none => .error "invalid octal literal"
  else
    match parseDecL s with
    | some q => .ok (.num q)
    | none => .error "not a number"

/-- Modelled from the spec: `atof` on Lean strings. -/
def atof (s : String) : Except String Big :=
  atofL s.data

/-! ## The stack (stack.go) and the dispatcher (operations.go) -/

/-- `stackType` from `stack.go`: the main stack `list` (top = last
element) and the snapshot `savedList`. -/
structure stackType where
  list : List Big
  savedList : List Big
deriving DecidableEq, Repr

/-- `save` from `stack.go`: copy the current stack into the snapshot. -/
def stackType.save (x : stackType) : stackType :=
  { x with savedList := x.list }

/-- `restore` from `stack.go`: copy the snapshot back into the stack. -/
def stackType.restore (x : stackType) : stackType :=
  { x with list := x.savedList }

/-- `push` from `stack.go`: append the given elements in order. -/
def stackType.push (x : stackType) (ns : List Big) : stackType :=
  { x with list := x.list ++ ns }

/-- `clear` from `stack.go`. -/
def stackType.clear (x : stackType) : stackType :=
  { x with list := [] }

/-- `top` from `stack.go`: the last element, or zero for an empty
stack. -/
def stackType.top (x : stackType) : Big :=
  x.list.getLast?.getD (.num 0)

/-- `ophandler` from `operations.go` (decimal version).  The Go handler
function receives the entire reversed stack and returns the values to
push and the number of cells to pop; some handlers additionally act on
the stack through their closure (`c` clears it, `dup` pushes).  The
embedding therefore passes the current stack contents to `fn` and lets
it return updated contents alongside the ordinary result.  The handlers
never touch the snapshot `savedList`, which the type makes explicit. -/
structure ophandler where
  op : String
  desc : String
  numArgs : Nat
  fn : List Big → List Big → List Big × Except String (List Big × Nat)

/-- The argument list `operation` builds for the handler: the entire
stack copied in reverse, so that `a[0]` is x, `a[1]` is y, and so on
(the loop `for ix := length - 1; ix >= 0; ix--` of `operations.go`). -/
def operationArgs (s : stackType) : List Big :=
  s.list.reverse

/-- The underflow error of `operation`
(`"this operation requires at least %d items in the stack"`). -/
def underflowMsg (n : Nat) : String :=
  "this operation requires at least " ++ toString n ++ " items in the stack"

/-- The defensive internal error of `operation`. -/
def internalPopMsg (op : String) (remove have_ : Nat) : String :=
  "(internal) operation \"" ++ op ++ "\" wants to pop " ++ toString remove ++
    " items, but we only have " ++ toString have_

/-- `operation` from `operations.go` (decimal version): checks the
arity against the stack depth, passes the reversed stack to the handler,
then pops exactly the number of cells the handler reports and pushes the
returned values in order.  Errors are returned as values; the stack (as
possibly updated by the handler's closure) is left as is on error. -/
def operation (h : ophandler) (s : stackType) : stackType × Option String :=
  if s.list.length < h.numArgs then
    (s, some (underflowMsg h.numArgs))
  else
    let args := operationArgs s
    let res := h.fn args s.list
    match res.2 with
    | .error e => ({ s with list := res.1 }, some e)
    | .ok (ret, remove) =>
        if 0 < remove ∧ res.1.length < remove then
          ({ s with list := res.1 }, some (internalPopMsg h.op remove res.1.length))
        else
          ({ s with list := res.1.take (res.1.length - remove) ++ ret }, none)

/-! ### The embedded operation handlers

Only the handlers whose numeric semantics are exactly representable over
`ℚ` are embedded (`+ - * / chs inv mod % sum fac d dup x c`); the
transcendental handlers (`^ sqr cbr`, trigonometry, logarithms, the
constants) and the display-state handlers are not needed by any verified
property, and the dispatcher theorems are generic in the handler.  The
`a.getD i nan` defaults are never reached: `operation` guarantees the
argument list holds at least `numArgs` elements before the handler
runs. -/

/-- The factorial loop of the `fac` handler: `fact.Mul(fact, ix)` for
`ix = 1 … z`, re-rounding at each step. -/
def facLoop (n : Nat) : ℚ :=
  (List.range n).foldl (fun acc i => roundSig (acc * ((i : ℚ) + 1))) 1

/-- Handler `+` (`big().Add(a[0], a[1])`, pops 2). -/
def opAdd : ophandler :=
  ⟨"+", "Add x to y", 2, fun a l =>
    (l, .ok ([addB (a.getD 0 .nan) (a.getD 1 .nan)], 2))⟩

/-- Handler `-` (`big().Sub(a[1], a[0])`, pops 2). -/
def opSub : ophandler :=
  ⟨"-", "Subtract x from y", 2, fun a l =>
    (l, .ok ([subB (a.getD 1 .nan) (a.getD 0 .nan)], 2))⟩

/-- Handler `*` (`big().Mul(a[0], a[1])`, pops 2). -/
def opMul : ophandler :=
  ⟨"*", "Multiply x and y", 2, fun a l =>
    (l, .ok ([mulB (a.getD 0 .nan) (a.getD 1 .nan)], 2))⟩

/-- Handler `/` (`ctx.Quo(big(), a[1], a[0])`, pops 2): divides y, the
second element from the top, by x, the topmost element. -/
def opDiv : ophandler :=
  ⟨"/", "Divide y by x", 2, fun a l =>
    (l, .ok ([quoB (a.getD 1 .nan) (a.getD 0 .nan)], 2))⟩

/-- Handler `chs` (`a[0].Neg(a[0])`, pops 1). -/
def opChs : ophandler :=
  ⟨"chs", "Change signal of x", 1, fun a l =>
    (l, .ok ([negB (a.getD 0 .nan)], 1))⟩

/-- Handler `inv` (`ctx.Quo(big(), bigUint(1), a[0])`, pops 1). -/
def opInv : ophandler :=
  ⟨"inv", "Invert x (1/x)", 1, fun a l =>
    (l, .ok ([quoB (.num 1) (a.getD 0 .nan)], 1))⟩

/-- Handler `mod` (`ctx.Rem(big(), a[1], a[0])`, pops 2). -/
def opMod : ophandler :=
  ⟨"mod", "Calculates y modulo x", 2, fun a l =>
    (l, .ok ([remB (a.getD 1 .nan) (a.getD 0 .nan)], 2))⟩

/-- Handler `%` (x percent of y; pops 1). -/
def opPct : ophandler :=
  ⟨"%", "Calculate x% of y", 2, fun a l =>
    (l, .ok ([quoB (mulB (a.getD 0 .nan) (a.getD 1 .nan)) (.num 100)], 1))⟩

/-- Handler `sum` (adds every element of the reversed stack, pops all). -/
def opSum : ophandler :=
  ⟨"sum", "Sum all elements in stack", 1, fun a l =>
    (l, .ok ([a.foldl (fun acc v => addB acc v) (.num 0)], a.length))⟩

/-- Handler `fac`: floors x, rejects a negative result with the error
`"factorial requires a positive number"`, and otherwise multiplies
`1 … z` with re-rounding.  (For a NaN or `+Infinity` operand the Go
loop's behavior — NaN comparisons / nontermination — is modelled as a
NaN result; no verified property evaluates those cases.) -/
def opFac : ophandler :=
  ⟨"fac", "Calculate factorial of x", 1, fun a l =>
    (l,
      match floorB (a.getD 0 .nan) with
      | .num z =>
          if z < 0 then .error "factorial requires a positive number"
          else .ok ([.num (facLoop (Int.toNat ⌊z⌋))], 1)
      | .inf true => .error "factorial requires a positive number"
      | _ => .ok ([.nan], 1))⟩

/-- Handler `d` (drop: pops 1, pushes nothing). -/
def opDrop : ophandler :=
  ⟨"d", "Drop top of stack (x)", 1, fun _ l => (l, .ok ([], 1))⟩

/-- Handler `dup` (`stack.push(a[0])` through the closure, pops 0). -/
def opDup : ophandler :=
  ⟨"dup", "Duplicate top of stack", 1, fun a l =>
    (l ++ [a.getD 0 .nan], .ok ([], 0))⟩

/-- Handler `x` (exchange x and y: returns `[a[0], a[1]]`, pops 2). -/
def opExch : ophandler :=
  ⟨"x", "Exchange x and y", 2, fun a l =>
    (l, .ok ([a.getD 0 .nan, a.getD 1 .nan], 2))⟩

/-- Handler `c` (`stack.clear()` through the closure, pops 0). -/
def opClear : ophandler :=
  ⟨"c", "Clear stack", 0, fun _ _ => ([], .ok ([], 0))⟩

/-- The embedded subset of the operation registry of `operations.go`. -/
def opsEmbedded : List ophandler :=
  [opAdd, opSub, opMul, opDiv, opChs, opInv, opMod, opPct, opSum, opFac,
    opDrop, opDup, opExch, opClear]

/-- Lookup in the registry by operation name (the `opmap` of
`operations.go`, which keys handlers by their `op` field). -/
def opmapFind (ops : List ophandler) (name : String) : Option ophandler :=
  ops.find? fun h => h.op = name

/-! ## Per-line token processing

Modelled from the spec: the current `calc` function of `main.go` is not
among the provided sources (only earlier revisions of the line loop and
the tests that call `calc` are), so the loop below follows §4.3/§7 of
the specification and the structure of the in-repo `main.go` revisions:
per token, first the operation table, then the control keywords, then
the numeric-literal parser; the first parse or evaluation error aborts
the remaining tokens of the line and restores the snapshot.  A line is
represented by its whitespace-split token list; `quit`/`exit`/`q`
terminate the process in Go and are modelled as stopping the loop. -/

/-- Modelled from the spec: process the tokens of one line against the
stack (see section header above). -/
def runTokens (m : String → Option ophandler) :
    stackType → List String → stackType × Option String
  | s, [] => (s, none)
  | s, t :: ts =>
    match m t with
    | some h =>
      match operation h s with
      | (s1, none) => runTokens m s1 ts
      | (s1, some e) => (s1.restore, some e)
    | none =>
      if t = "help" ∨ t = "h" ∨ t = "?" then runTokens m s ts
      else if t = "quit" ∨ t = "exit" ∨ t = "q" then (s, none)
      else
        match atofL t.data with
        | .ok n => runTokens m (s.push [n]) ts
        | .error e => (s.restore, some e)

/-- Modelled from the spec: process one input line — `save` the stack
first, then run the tokens (the per-line loop of `main.go`). -/
def calcLine (m : String → Option ophandler) (s : stackType)
    (tokens : List String) : stackType × Option String :=
  runTokens m s.save tokens

/-! ## Arithmetic lemmas about the rounding model -/

theorem digitCount_lt_pow (n : Nat) : n < 10 ^ digitCount n := by
  induction n using Nat.strong_induction_on with
  | _ n ih =>
    unfold digitCount
    split
    · omega
    · rename_i h
      have hd := ih (n / 10) (Nat.div_lt_self (by omega) (by omega))
      have : n < 10 * (n / 10 + 1) := by omega
      calc n < 10 * (n / 10 + 1) := this
        _ ≤ 10 * 10 ^ digitCount (n / 10) := by
            have : n / 10 + 1 ≤ 10 ^ digitCount (n / 10) := hd
            omega
        _ = 10 ^ (digitCount (n / 10) + 1) := by ring

theorem pow_digitCount_pred_le (n : Nat) (h : 1 ≤ n) :
    10 ^ (digitCount n - 1) ≤ n := by
  induction n using Nat.strong_induction_on with
  | _ n ih =>
    unfold digitCount
    split
    · simpa using h
    · rename_i hn
      have h10 : 1 ≤ n / 10 := by omega
      have hd := ih (n / 10) (Nat.div_lt_self (by omega) (by omega)) h10
      have hpos : 1 ≤ digitCount (n / 10) := by
        unfold digitCount
        split <;> omega
      have : 10 ^ (digitCount (n / 10) + 1 - 1) = 10 * 10 ^ (digitCount (n / 10) - 1) := by
        have : digitCount (n / 10) + 1 - 1 = (digitCount (n / 10) - 1) + 1 := by omega
        rw [this]; ring
      rw [this]
      calc 10 * 10 ^ (digitCount (n / 10) - 1) ≤ 10 * (n / 10) := by omega
        _ ≤ n := Nat.mul_div_le n 10

theorem digitCount_pos (n : Nat) : 1 ≤ digitCount n := by
  unfold digitCount
  split <;> omega

theorem digitCount_le_of_lt_pow (n k : Nat) (hk : 1 ≤ k) (h : n < 10 ^ k) :
    digitCount n ≤ k := by
  by_contra hlt
  push_neg at hlt
  rcases Nat.eq_zero_or_pos n with h0 | h1
  · subst h0
    have : digitCount 0 = 1 := by unfold digitCount; simp
    omega
  · have h2 := pow_digitCount_pred_le n h1
    have : 10 ^ k ≤ 10 ^ (digitCount n - 1) :=
      Nat.pow_le_pow_right (by omega) (by omega)
    omega

theorem decExp_spec (q : ℚ) (hq : q ≠ 0) :
    (10 : ℚ) ^ decExp q ≤ |q| ∧ |q| < (10 : ℚ) ^ (decExp q + 1) := by
  have ha : (0 : ℚ) < |q| := abs_pos.mpr hq
  simp only [decExp]
  split
  · rename_i h1
    set m := Int.toNat ⌊|q|⌋ with hm
    have hfl : (1 : ℤ) ≤ ⌊|q|⌋ := by
      rwa [Int.le_floor, Int.cast_one]
    have hm1 : 1 ≤ m := by omega
    have hcast : ((m : ℤ) : ℚ) = (⌊|q|⌋ : ℚ) := by
      rw [hm, Int.toNat_of_nonneg (by omega)]
    have hdpos : 1 ≤ digitCount m := digitCount_pos m
    constructor
    · have hle : (10 : ℚ) ^ ((digitCount m : ℤ) - 1) =
          ((10 ^ (digitCount m - 1) : ℕ) : ℚ) := by
        push_cast
        rw [← zpow_natCast]
        congr 1
        omega
      rw [hle]
      have h2 := pow_digitCount_pred_le m hm1
      calc ((10 ^ (digitCount m - 1) : ℕ) : ℚ) ≤ (m : ℚ) := by exact_mod_cast h2
        _ = (⌊|q|⌋ : ℚ) := by exact_mod_cast hcast
        _ ≤ |q| := Int.floor_le _
    · have hpe : (digitCount m : ℤ) - 1 + 1 = (digitCount m : ℤ) := by ring
      rw [hpe, zpow_natCast]
      have h3 := digitCount_lt_pow m
      calc |q| < (⌊|q|⌋ : ℚ) + 1 := Int.lt_floor_add_one _
        _ = (m : ℚ) + 1 := by rw [← hcast]; norm_cast
        _ ≤ ((10 ^ digitCount m : ℕ) : ℚ) := by exact_mod_cast h3
        _ = (10 : ℚ) ^ digitCount m := by push_cast; ring
  · rename_i h1
    push_neg at h1
    have hinv : 1 < |q|⁻¹ := one_lt_inv (by exact ha) h1
    set r := |q|⁻¹ with hr
    have hrfl : (1 : ℤ) ≤ ⌊r⌋ := by
      rw [Int.le_floor, Int.cast_one]; exact le_of_lt hinv
    set m := Int.toNat ⌊r⌋ with hm
    have hm1 : 1 ≤ m := by omega
    have hcast : ((m : ℤ) : ℚ) = (⌊r⌋ : ℚ) := by
      rw [hm, Int.toNat_of_nonneg (by omega)]
    have hdpos : 1 ≤ digitCount m := digitCount_pos m
    set t := digitCount m - 1 with ht
    have hlow : (10 : ℚ) ^ (t : ℕ) ≤ r := by
      have h2 := pow_digitCount_pred_le m hm1
      calc (10 : ℚ) ^ (t : ℕ) = ((10 ^ t : ℕ) : ℚ) := by push_cast; ring
        _ ≤ (m : ℚ) := by exact_mod_cast h2
        _ = (⌊r⌋ : ℚ) := by exact_mod_cast hcast
        _ ≤ r := Int.floor_le _
    have hhigh : r < (10 : ℚ) ^ (t + 1 : ℕ) := by
      have h3 := digitCount_lt_pow m
      have htdc : t + 1 = digitCount m := by omega
      calc r < (⌊r⌋ : ℚ) + 1 := Int.lt_floor_add_one _
        _ = (m : ℚ) + 1 := by rw [← hcast]; norm_cast
        _ ≤ ((10 ^ digitCount m : ℕ) : ℚ) := by exact_mod_cast h3
        _ = (10 : ℚ) ^ (t + 1 : ℕ) := by rw [htdc]; push_cast; ring
    have hpowpos : (0 : ℚ) < (10 : ℚ) ^ (t : ℕ) := by positivity
    have hpow1pos : (0 : ℚ) < (10 : ℚ) ^ (t + 1 : ℕ) := by positivity
    -- translate bounds on r = |q|⁻¹ into bounds on |q|
    have haux1 : |q| ≤ ((10 : ℚ) ^ (t : ℕ))⁻¹ := by
      rw [← inv_inv |q|]
      exact inv_le_inv_of_le hpowpos hlow
    have haux2 : ((10 : ℚ) ^ (t + 1 : ℕ))⁻¹ < |q| := by
      rw [← inv_inv |q|]
      exact inv_lt_inv_of_lt (inv_pos.mpr ha) hhigh
    split
    · rename_i hcond
      constructor
      · rw [zpow_neg, zpow_natCast]
        calc ((10 : ℚ) ^ (t : ℕ))⁻¹ = 1 / (10 : ℚ) ^ (t : ℕ) := by ring
          _ ≤ |q| := by
            rw [div_le_iff hpowpos]
            linarith [hcond]
      · have : (-(t : ℤ) + 1) = -((t : ℤ) - 1) := by ring
        calc |q| ≤ ((10 : ℚ) ^ (t : ℕ))⁻¹ := haux1
          _ < (10 : ℚ) ^ (-(t : ℤ) + 1) := by
            rw [zpow_add₀ (by norm_num), zpow_neg, zpow_natCast]
            have : ((10 : ℚ) ^ (t : ℕ))⁻¹ * 1 < ((10 : ℚ) ^ (t : ℕ))⁻¹ * 10 := by
              have := inv_pos.mpr hpowpos
              nlinarith
            simpa [zpow_one] using this
    · rename_i hcond
      push_neg at hcond
      constructor
      · have : -(t : ℤ) - 1 = -((t : ℤ) + 1) := by ring
        rw [this, zpow_neg]
        have hc : ((t : ℤ) + 1) = ((t + 1 : ℕ) : ℤ) := by push_cast; ring
        rw [hc, zpow_natCast]
        exact le_of_lt haux2
      · have he : -(t : ℤ) - 1 + 1 = -(t : ℤ) := by ring
        rw [he, zpow_neg, zpow_natCast, ← one_div, lt_div_iff₀ hpowpos]
        linarith [hcond]

theorem decExp_eq (q : ℚ) (e : ℤ) (hq : q ≠ 0)
    (h1 : (10 : ℚ) ^ e ≤ |q|) (h2 : |q| < (10 : ℚ) ^ (e + 1)) :
    decExp q = e := by
  have hs := decExp_spec q hq
  by_contra hne
  rcases lt_or_gt_of_ne hne with hlt | hgt
  · have : (10 : ℚ) ^ (decExp q + 1) ≤ (10 : ℚ) ^ e :=
      zpow_le_zpow_right₀ (by norm_num) (by omega)
    linarith [hs.1, hs.2]
  · have : (10 : ℚ) ^ (e + 1) ≤ (10 : ℚ) ^ decExp q :=
      zpow_le_zpow_right₀ (by norm_num) (by omega)
    linarith [hs.1, hs.2]

theorem rne_intCast (z : ℤ) : rne (z : ℚ) = z := by
  simp [rne]

theorem roundSig_eq_self (q : ℚ) (z : ℤ)
    (hz : q * 10 ^ (33 - decExp q) = (z : ℚ)) : roundSig q = q := by
  by_cases h0 : q = 0
  · simp [roundSig, h0]
  · unfold roundSig
    rw [if_neg h0, hz, rne_intCast, ← hz]
    have hpow : ((10 : ℚ) ^ (33 - decExp q)) ≠ 0 := by
      apply zpow_ne_zero
      norm_num
    field_simp

theorem decExp_intCast (z : ℤ) (hz : z ≠ 0) :
    decExp (z : ℚ) = (digitCount z.natAbs : ℤ) - 1 := by
  apply decExp_eq _ _ (by exact_mod_cast hz)
  · have h1 : 1 ≤ z.natAbs := by omega
    have h2 := pow_digitCount_pred_le z.natAbs h1
    have habs : |(z : ℚ)| = (z.natAbs : ℚ) := by
      rw [Int.cast_natAbs, Int.cast_abs]
    rw [habs]
    have hd := digitCount_pos z.natAbs
    have : (10 : ℚ) ^ ((digitCount z.natAbs : ℤ) - 1) =
        ((10 ^ (digitCount z.natAbs - 1) : ℕ) : ℚ) := by
      push_cast
      rw [← zpow_natCast]
      congr 1
      omega
    rw [this]
    exact_mod_cast h2
  · have h3 := digitCount_lt_pow z.natAbs
    have habs : |(z : ℚ)| = (z.natAbs : ℚ) := by
      rw [Int.cast_natAbs, Int.cast_abs]
    rw [habs]
    have : (digitCount z.natAbs : ℤ) - 1 + 1 = (digitCount z.natAbs : ℤ) := by ring
    rw [this, zpow_natCast]
    exact_mod_cast h3

theorem roundSig_intCast_small (z : ℤ) (hbound : z.natAbs < 10 ^ 34) :
    roundSig (z : ℚ) = (z : ℚ) := by
  by_cases h0 : z = 0
  · simp [roundSig, h0]
  · have hd : digitCount z.natAbs ≤ 34 :=
      digitCount_le_of_lt_pow z.natAbs 34 (by omega) hbound
    have he := decExp_intCast z h0
    apply roundSig_eq_self _ (z * 10 ^ (34 - digitCount z.natAbs))
    rw [he]
    have hk : (33 : ℤ) - ((digitCount z.natAbs : ℤ) - 1) =
        ((34 - digitCount z.natAbs : ℕ) : ℤ) := by
      have := digitCount_pos z.natAbs
      push_cast
      omega
    rw [hk, zpow_natCast]
    push_cast
    ring

theorem roundSig_int_valued (z : ℤ) : ∃ w : ℤ, roundSig (z : ℚ) = (w : ℚ) := by
  by_cases h0 : z = 0
  · exact ⟨0, by simp [roundSig, h0]⟩
  · unfold roundSig
    rw [if_neg (by exact_mod_cast h0)]
    set k : ℤ := 33 - decExp (z : ℚ) with hk
    rcases le_or_lt 0 k with hpos | hneg
    · refine ⟨z, ?_⟩
      have hz10 : ((10 : ℚ) ^ k) ≠ 0 := zpow_ne_zero _ (by norm_num)
      have harg : (z : ℚ) * 10 ^ k = ((z * 10 ^ k.toNat : ℤ) : ℚ) := by
        push_cast
        rw [← zpow_natCast, Int.toNat_of_nonneg hpos]
      rw [harg, rne_intCast, ← harg]
      exact mul_div_cancel_right₀ _ hz10
    · refine ⟨rne ((z : ℚ) * 10 ^ k) * 10 ^ (-k).toNat, ?_⟩
      have hz10 : ((10 : ℚ) ^ k) ≠ 0 := zpow_ne_zero _ (by norm_num)
      have hm : ((10 : ℚ) ^ ((-k).toNat : ℕ)) * (10 : ℚ) ^ k = 1 := by
        rw [← zpow_natCast, ← zpow_add₀ (by norm_num : (10 : ℚ) ≠ 0)]
        have he : (((-k).toNat : ℕ) : ℤ) + k = 0 := by omega
        rw [he, zpow_zero]
      push_cast
      rw [div_eq_iff hz10, mul_assoc, hm, mul_one]

/-! ## Dispatcher and snapshot lemmas -/

theorem operation_savedList (h : ophandler) (s : stackType) :
    ((operation h s).1).savedList = s.savedList := by
  simp only [operation]
  split
  · rfl
  · split
    · rfl
    · split
      · rfl
      · rfl


theorem runTokens_error_list (m : String → Option ophandler)
    (ts : List String) :
    ∀ (s s' : stackType) (e : String),
      runTokens m s ts = (s', some e) →
        s'.list = s.savedList ∧ s'.savedList = s.savedList := by
  induction ts with
  | nil =>
    intro s s' e h
    exact absurd h (by simp [runTokens])
  | cons t ts ih =>
    intro s s' e h
    simp only [runTokens] at h
    rcases hm : m t with _ | hdl
    · rw [hm] at h
      simp only at h
      split at h
      · exact ih s s' e h
      · split at h
        · exact absurd h (by simp)
        · rcases ha : atofL t.data with e' | n
          · rw [ha] at h
            simp only at h
            cases h
            exact ⟨rfl, rfl⟩
          · rw [ha] at h
            simp only at h
            have hres := ih (s.push [n]) s' e h
            exact hres
    · rw [hm] at h
      simp only at h
      rcases hop : operation hdl s with ⟨s1, oe⟩
      have hsaved : s1.savedList = s.savedList := by
        have hh := operation_savedList hdl s
        rw [hop] at hh
        exact hh
      rw [hop] at h
      rcases oe with _ | e1
      · simp only at h
        have hres := ih s1 s' e h
        rw [hsaved] at hres
        exact hres
      · simp only at h
        cases h
        exact ⟨hsaved, hsaved⟩

/-! ## Claims -/

/-- C2: for every stack state and every input line, when `save()` runs
before the line and `restore()` runs on the first parse or evaluation
error in that line, the stack after the failed line equals the stack
before the line began, no matter how many tokens of the line had already
been applied (token processing never touches the snapshot
`savedList`). -/
theorem C2_snapshot_restore (m : String → Option ophandler)
    (s : stackType) (tokens : List String) (s' : stackType) (e : String)
    (h : calcLine m s tokens = (s', some e)) :
    s'.list = s.list := by
  unfold calcLine at h
  have hres := runTokens_error_list m tokens s.save s' e h
  exact hres.1

/-- C2 witness: a line whose token fails to parse is rolled back to the
pre-line stack. -/
theorem C2_snapshot_restore_witness :
    calcLine (opmapFind opsEmbedded) ⟨[Big.num 7], []⟩ ["bogus"] =
        (⟨[Big.num 7], [Big.num 7]⟩, some "not a number") ∧
      (⟨[Big.num 7], [Big.num 7]⟩ : stackType).list =
        (⟨[Big.num 7], []⟩ : stackType).list := by
  constructor
  · decide
  · exact C2_snapshot_restore (opmapFind opsEmbedded) ⟨[Big.num 7], []⟩
      ["bogus"] ⟨[Big.num 7], [Big.num 7]⟩ "not a number" (by decide)

/-- C8: dispatching any operation whose arity exceeds the stack depth
returns the reported underflow error as a value (no panic, no process
termination — `operation` is a total function returning the error
string) and leaves the stack unchanged. -/
theorem C8_underflow_reported (h : ophandler) (s : stackType)
    (hlt : s.list.length < h.numArgs) :
    operation h s = (s, some (underflowMsg h.numArgs)) := by
  simp only [operation]
  rw [if_pos hlt]

/-- C8 witness: the binary `+` handler on an empty stack. -/
theorem C8_underflow_reported_witness :
    (⟨[], []⟩ : stackType).list.length < opAdd.numArgs ∧
      operation opAdd ⟨[], []⟩ =
        (⟨[], []⟩, some (underflowMsg opAdd.numArgs)) :=
  ⟨by decide, C8_underflow_reported opAdd ⟨[], []⟩ (by decide)⟩

/-- C3 counterexample: with the registered arity-2 operation `+` and
the three-element stack `[1, 2, 3]` (top = 3), the argument list that
`operation` passes to the handler is the whole stack reversed,
`[3, 2, 1]` — not the top two elements `[3, 2]` that the claim
describes. -/
theorem C3_args_counterexample :
    opAdd.numArgs = 2 ∧
      operationArgs ⟨[Big.num 1, Big.num 2, Big.num 3], []⟩ =
        [Big.num 3, Big.num 2, Big.num 1] ∧
      operationArgs ⟨[Big.num 1, Big.num 2, Big.num 3], []⟩ ≠
        [Big.num 3, Big.num 2] := by
  refine ⟨rfl, by decide, by decide⟩

/-- C3 amended: for every registered operation with arity `k` and every
stack holding at least `k` elements, the argument list passed to the
handler is the *entire* stack in top-to-bottom order (`a[0]` is x,
`a[1]` is y, …) — its first `k` entries are the top `k` elements; after
a handler that leaves the stack untouched returns successfully, exactly
the number of cells the handler reports consumed are removed from the
top and the returned values are pushed in the order given. -/
theorem C3_dispatch_amended (h : ophandler) (s : stackType)
    (ret : List Big) (remove : Nat)
    (hk : h.numArgs ≤ s.list.length)
    (hfn : h.fn (operationArgs s) s.list = (s.list, .ok (ret, remove)))
    (hrem : remove ≤ s.list.length) :
    operationArgs s = s.list.reverse ∧
      operation h s =
        ({ s with list := s.list.take (s.list.length - remove) ++ ret },
          none) := by
  refine ⟨rfl, ?_⟩
  simp only [operation]
  rw [if_neg (by omega), hfn]
  simp only
  rw [if_neg (by omega)]

/-- C3 witness: the `+` handler over the stack `[1, 2, 3]`. -/
theorem C3_dispatch_amended_witness :
    opAdd.numArgs ≤ ([Big.num 1, Big.num 2, Big.num 3] : List Big).length ∧
      operationArgs ⟨[Big.num 1, Big.num 2, Big.num 3], []⟩ =
        ([Big.num 1, Big.num 2, Big.num 3] : List Big).reverse ∧
      operation opAdd ⟨[Big.num 1, Big.num 2, Big.num 3], []⟩ =
        (⟨[Big.num 1] ++ [addB (Big.num 3) (Big.num 2)], []⟩, none) := by
  have hmain := C3_dispatch_amended opAdd ⟨[Big.num 1, Big.num 2, Big.num 3], []⟩
    [addB (Big.num 3) (Big.num 2)] 2 (by decide) rfl (by decide)
  exact ⟨by decide, hmain.1, hmain.2⟩

theorem formatNumber_snd_base_ne10 (q : ℚ) (base decimals : Nat)
    (single : Bool) (hb : base ≠ 10) :
    (formatNumber (.num q) base decimals single).2 =
      .num (if (if q < 0 then -q else q).den ≠ 1 then
          roundSig (⌊if q < 0 then -q else q⌋ : ℚ)
        else if q < 0 then -q else q) := by
  simp only [formatNumber]
  rw [if_pos hb]
  rcases hu : uint64OfQ (if (if q < 0 then -q else q).den ≠ 1 then
      roundSig (⌊if q < 0 then -q else q⌋ : ℚ)
    else if q < 0 then -q else q) with _ | n64
  · rfl
  · dsimp only
    split_ifs <;> rfl

/-- C10: `formatNumber` mutates the `*decimal.Big` passed to it: for
every base in {2, 8, 16} and every finite value that is negative or
non-integral, the value stored after rendering (the second component of
the embedding, the final state of the pointed-to argument) differs from
the value before — the sign bit is cleared and/or the value is floored —
while the base-10 path always leaves the argument unchanged. -/
theorem C10_format_mutates_argument :
    (∀ (q : ℚ) (base decimals : Nat) (single : Bool),
        (base = 2 ∨ base = 8 ∨ base = 16) → (q < 0 ∨ q.den ≠ 1) →
        (formatNumber (.num q) base decimals single).2 ≠ .num q) ∧
      ∀ (q : ℚ) (decimals : Nat) (single : Bool),
        (formatNumber (.num q) 10 decimals single).2 = .num q := by
  constructor
  · intro q base decimals single hbase hcond
    have hb : base ≠ 10 := by rcases hbase with h | h | h <;> omega
    rw [formatNumber_snd_base_ne10 q base decimals single hb]
    intro hcontra
    have heq : (if (if q < 0 then -q else q).den ≠ 1 then
        roundSig (⌊if q < 0 then -q else q⌋ : ℚ)
      else if q < 0 then -q else q) = q := by
      injection hcontra
    by_cases hden : (if q < 0 then -q else q).den ≠ 1
    · rw [if_pos hden] at heq
      obtain ⟨w, hw⟩ := roundSig_int_valued ⌊if q < 0 then -q else q⌋
      rw [hw] at heq
      have hden1 : q.den = 1 := by
        rw [← heq]
        exact Rat.den_intCast w
      rcases hcond with hneg | hnon
      · have hd2 : (if q < 0 then -q else q).den = q.den := by
          rw [if_pos hneg]
          exact Rat.den_neg_eq_den q
        omega
      · exact hnon hden1
    · push_neg at hden
      rw [if_neg (by omega)] at heq
      rcases hcond with hneg | hnon
      · rw [if_pos hneg] at heq
        have hq0 : q = 0 := by linarith [heq]
        exact absurd hq0 (ne_of_lt hneg)
      · have hd2 : (if q < 0 then -q else q).den = q.den := by
          split
          · exact Rat.den_neg_eq_den q
          · rfl
        omega
  · intro q decimals single
    simp [formatNumber]

/-- C10 witness: rendering 255.5 in base 2 changes the stored value. -/
theorem C10_format_mutates_argument_witness :
    ((2 : Nat) = 2 ∨ (2 : Nat) = 8 ∨ (2 : Nat) = 16) ∧
      ((511 / 2 : ℚ) < 0 ∨ (511 / 2 : ℚ).den ≠ 1) ∧
      (formatNumber (.num (511 / 2)) 2 6 false).2 ≠ .num (511 / 2) :=
  ⟨by decide, by norm_num,
    C10_format_mutates_argument.1 (511 / 2) 2 6 false (by decide)
      (by norm_num)⟩

/-- The mandatory base prefix of the non-decimal rendering (`0b`,
leading `0`, `0x`). -/
def basePrefixL (base : Nat) : List Char :=
  if base = 2 then ['0', 'b']
  else if base = 8 then ['0']
  else if base = 16 then ['0', 'x']
  else []

theorem formatNumber_truncates (q : ℚ) (base decimals : Nat)
    (single : Bool) (hbase : base = 2 ∨ base = 8 ∨ base = 16)
    (hnonint : q.den ≠ 1) (hfit : ⌊|q|⌋ < 2 ^ 64) :
    (formatNumber (.num q) base decimals single).1 =
      String.mk ((if q < 0 then ['-'] else []) ++ basePrefixL base ++
        natToBase base (Int.toNat ⌊|q|⌋) ++ " (truncated from ".data ++
        stripTrailingDigits (fmtF q decimals) decimals ++ [')']) := by
  have hb : base ≠ 10 := by rcases hbase with h | h | h <;> omega
  have habs : (if q < 0 then -q else q) = |q| := by
    split
    · rename_i hneg
      rw [abs_of_neg hneg]
    · rename_i hpos
      push_neg at hpos
      rw [abs_of_nonneg hpos]
  have hden : |q|.den ≠ 1 := by
    rw [← habs]
    split
    · rw [Rat.den_neg_eq_den]
      exact hnonint
    · exact hnonint
  have hfl0 : (0 : ℤ) ≤ ⌊|q|⌋ := Int.floor_nonneg.mpr (abs_nonneg q)
  have hround : roundSig ((⌊|q|⌋ : ℤ) : ℚ) = ((⌊|q|⌋ : ℤ) : ℚ) := by
    apply roundSig_intCast_small
    have h34 : (2 : ℤ) ^ 64 < 10 ^ 34 := by norm_num
    omega
  have hu : uint64OfQ ((⌊|q|⌋ : ℤ) : ℚ) = some (Int.toNat ⌊|q|⌋) := by
    unfold uint64OfQ
    rw [if_pos]
    · simp
    · refine ⟨Rat.den_intCast _, ?_, ?_⟩
      · rw [Rat.num_intCast]
        exact hfl0
      · rw [Rat.num_intCast]
        exact hfit
  simp only [formatNumber]
  rw [if_pos hb]
  simp only [habs, if_pos hden, hround, hu]
  rcases hbase with h2 | h8 | h16 <;> subst base <;>
    simp [basePrefixL, List.append_assoc]

theorem rne_toNat_of_eq (x : ℚ) (z : ℤ) (n : Nat) (h : x = (z : ℚ))
    (hn : z.toNat = n) : (rne x).toNat = n := by
  rw [h, rne_intCast, hn]

theorem fmtF_255p5 : fmtF (511 / 2 : ℚ) 6 = "255.500000".data := by
  have ha : |(511 / 2 : ℚ)| * 10 ^ 6 = ((255500000 : ℤ) : ℚ) := by
    rw [show |(511 / 2 : ℚ)| = 511 / 2 from abs_of_pos (by norm_num)]
    norm_num
  have hN : (rne (|(511 / 2 : ℚ)| * 10 ^ 6)).toNat = 255500000 :=
    rne_toNat_of_eq _ 255500000 _ ha rfl
  have hds : natToBase 10 255500000 = "255500000".data := by
    simp [natToBase, natToBaseCore, digitChar]
  have hneg : ¬ ((511 / 2 : ℚ) < 0) := by norm_num
  simp only [fmtF, hN, hds, if_neg hneg]
  decide

theorem fmtF_neg255p5 : fmtF (-(511 / 2) : ℚ) 6 = "-255.500000".data := by
  have ha : |(-(511 / 2) : ℚ)| * 10 ^ 6 = ((255500000 : ℤ) : ℚ) := by
    rw [show |(-(511 / 2) : ℚ)| = 511 / 2 by rw [abs_neg]; exact abs_of_pos (by norm_num)]
    norm_num
  have hN : (rne (|(-(511 / 2) : ℚ)| * 10 ^ 6)).toNat = 255500000 :=
    rne_toNat_of_eq _ 255500000 _ ha rfl
  have hds : natToBase 10 255500000 = "255500000".data := by
    simp [natToBase, natToBaseCore, digitChar]
  have hneg : (-(511 / 2) : ℚ) < 0 := by norm_num
  simp only [fmtF, hN, hds, if_pos hneg]
  decide

/-- C5: for every finite non-integral value and every base in
{2, 8, 16}, the formatter floors the (absolutized) value — it does not
round — and appends ` (truncated from <original-decimal-rendering>)`;
negative values carry a leading minus sign on the absolutized magnitude.
In particular 255.5 formats as `0b11111111 (truncated from 255.5)` in
base 2 and `0xff (truncated from 255.5)` in base 16, and −255.5 in base
16 as `-0xff (truncated from -255.5)`. -/
theorem C5_truncation_annotation :
    (∀ (q : ℚ) (base decimals : Nat) (single : Bool),
        (base = 2 ∨ base = 8 ∨ base = 16) → q.den ≠ 1 → ⌊|q|⌋ < 2 ^ 64 →
        (formatNumber (.num q) base decimals single).1 =
          String.mk ((if q < 0 then ['-'] else []) ++ basePrefixL base ++
            natToBase base (Int.toNat ⌊|q|⌋) ++ " (truncated from ".data ++
            stripTrailingDigits (fmtF q decimals) decimals ++ [')'])) ∧
      (formatNumber (.num (511 / 2)) 2 6 false).1 =
        "0b11111111 (truncated from 255.5)" ∧
      (formatNumber (.num (511 / 2)) 16 6 false).1 =
        "0xff (truncated from 255.5)" ∧
      (formatNumber (.num (-(511 / 2))) 16 6 false).1 =
        "-0xff (truncated from -255.5)" := by
  have hden : ((511 / 2 : ℚ)).den ≠ 1 := by norm_num
  have hdenn : ((-(511 / 2) : ℚ)).den ≠ 1 := by
    rw [Rat.den_neg_eq_den]
    exact hden
  have hfl : (⌊|(511 / 2 : ℚ)|⌋ : ℤ) = 255 := by
    rw [show |(511 / 2 : ℚ)| = 511 / 2 from abs_of_pos (by norm_num)]
    norm_num
  have hfln : (⌊|(-(511 / 2) : ℚ)|⌋ : ℤ) = 255 := by
    rw [abs_neg]
    exact hfl
  refine ⟨formatNumber_truncates, ?_, ?_, ?_⟩
  · rw [formatNumber_truncates (511 / 2 : ℚ) 2 6 false (by norm_num) hden
      (by rw [hfl]; norm_num)]
    rw [hfl]
    have hds : natToBase 2 (Int.toNat 255) = "11111111".data := by
      simp [natToBase, natToBaseCore, digitChar]
    rw [hds, fmtF_255p5]
    have hlt : ¬ ((511 / 2 : ℚ) < 0) := by norm_num
    rw [if_neg hlt]
    decide
  · rw [formatNumber_truncates (511 / 2 : ℚ) 16 6 false (by norm_num) hden
      (by rw [hfl]; norm_num)]
    rw [hfl]
    have hds : natToBase 16 (Int.toNat 255) = "ff".data := by
      simp [natToBase, natToBaseCore, digitChar]
    rw [hds, fmtF_255p5]
    have hlt : ¬ ((511 / 2 : ℚ) < 0) := by norm_num
    rw [if_neg hlt]
    decide
  · rw [formatNumber_truncates (-(511 / 2) : ℚ) 16 6 false (by norm_num) hdenn
      (by rw [hfln]; norm_num)]
    rw [hfln]
    have hds : natToBase 16 (Int.toNat 255) = "ff".data := by
      simp [natToBase, natToBaseCore, digitChar]
    rw [hds, fmtF_neg255p5]
    have hlt : (-(511 / 2) : ℚ) < 0 := by norm_num
    rw [if_pos hlt]
    decide

/-- C5 witness: the general clause applied at 255.5, base 2. -/
theorem C5_truncation_annotation_witness :
    (((2 : Nat) = 2 ∨ (2 : Nat) = 8 ∨ (2 : Nat) = 16) ∧
        ((511 / 2 : ℚ)).den ≠ 1 ∧ ⌊|(511 / 2 : ℚ)|⌋ < 2 ^ 64) ∧
      (formatNumber (.num (511 / 2)) 2 6 false).1 =
        String.mk ((if (511 / 2 : ℚ) < 0 then ['-'] else []) ++
          basePrefixL 2 ++ natToBase 2 (Int.toNat ⌊|(511 / 2 : ℚ)|⌋) ++
          " (truncated from ".data ++
          stripTrailingDigits (fmtF (511 / 2) 6) 6 ++ [')']) :=
  ⟨⟨Or.inl rfl, by norm_num, by
      rw [show |(511 / 2 : ℚ)| = 511 / 2 from abs_of_pos (by norm_num)]
      norm_num⟩,
    C5_truncation_annotation.1 (511 / 2) 2 6 false (Or.inl rfl)
      (by norm_num)
      (by
        rw [show |(511 / 2 : ℚ)| = 511 / 2 from abs_of_pos (by norm_num)]
        norm_num)⟩

theorem fmtF_1000 : fmtF (1000 : ℚ) 6 = "1000.000000".data := by
  have ha : |(1000 : ℚ)| * 10 ^ 6 = ((1000000000 : ℤ) : ℚ) := by
    rw [show |(1000 : ℚ)| = 1000 from abs_of_pos (by norm_num)]
    norm_num
  have hN : (rne (|(1000 : ℚ)| * 10 ^ 6)).toNat = 1000000000 :=
    rne_toNat_of_eq _ 1000000000 _ ha rfl
  have hds : natToBase 10 1000000000 = "1000000000".data := by
    simp [natToBase, natToBaseCore, digitChar]
  have hneg : ¬ ((1000 : ℚ) < 0) := by norm_num
  simp only [fmtF, hN, hds, if_neg hneg]
  decide

theorem fmtF_999 : fmtF (999 : ℚ) 6 = "999.000000".data := by
  have ha : |(999 : ℚ)| * 10 ^ 6 = ((999000000 : ℤ) : ℚ) := by
    rw [show |(999 : ℚ)| = 999 from abs_of_pos (by norm_num)]
    norm_num
  have hN : (rne (|(999 : ℚ)| * 10 ^ 6)).toNat = 999000000 :=
    rne_toNat_of_eq _ 999000000 _ ha rfl
  have hds : natToBase 10 999000000 = "999000000".data := by
    simp [natToBase, natToBaseCore, digitChar]
  have hneg : ¬ ((999 : ℚ) < 0) := by norm_num
  simp only [fmtF, hN, hds, if_neg hneg]
  decide

/-- C9: in base 10, when the digit-grouped rendering differs from the
plain rendering it is appended parenthetically, when it coincides
nothing is appended, and in single-shot mode the parenthetical form is
always suppressed; in particular interactive formatting of 1000 yields
`"1000 (1,000)"` and of 999 yields `"999"`. -/
theorem C9_grouped_rendering :
    (∀ (q : ℚ) (decimals : Nat),
        (commafWithDigits q decimals ≠
            stripTrailingDigits (fmtF q decimals) decimals →
          (formatNumber (.num q) 10 decimals false).1 =
            String.mk (stripTrailingDigits (fmtF q decimals) decimals ++
              ' ' :: '(' :: (commafWithDigits q decimals ++ [')']))) ∧
        (commafWithDigits q decimals =
            stripTrailingDigits (fmtF q decimals) decimals →
          (formatNumber (.num q) 10 decimals false).1 =
            String.mk (stripTrailingDigits (fmtF q decimals) decimals)) ∧
        (formatNumber (.num q) 10 decimals true).1 =
          String.mk (stripTrailingDigits (fmtF q decimals) decimals)) ∧
      (formatNumber (.num 1000) 10 6 false).1 = "1000 (1,000)" ∧
      (formatNumber (.num 999) 10 6 false).1 = "999" := by
  refine ⟨?_, ?_, ?_⟩
  · intro q decimals
    refine ⟨?_, ?_, ?_⟩
    · intro hne
      simp only [formatNumber]
      rw [if_neg (by norm_num)]
      rw [if_pos ⟨hne, trivial⟩]
      simp [List.append_assoc]
    · intro heq
      simp only [formatNumber]
      rw [if_neg (by norm_num)]
      rw [if_neg (by simp [heq])]
      simp
    · simp only [formatNumber]
      rw [if_neg (by norm_num)]
      rw [if_neg (by simp)]
      simp
  · have habs : |(1000 : ℚ)| = 1000 := abs_of_pos (by norm_num)
    simp only [formatNumber]
    rw [if_neg (by norm_num)]
    simp only [commafWithDigits, habs, fmtF_1000]
    decide
  · have habs : |(999 : ℚ)| = 999 := abs_of_pos (by norm_num)
    simp only [formatNumber]
    rw [if_neg (by norm_num)]
    simp only [commafWithDigits, habs, fmtF_999]
    decide

/-- C9 witness: 1000 has a distinct grouped form, and the parenthetical
clause of the theorem applies to it. -/
theorem C9_grouped_rendering_witness :
    commafWithDigits (1000 : ℚ) 6 ≠
        stripTrailingDigits (fmtF (1000 : ℚ) 6) 6 ∧
      (formatNumber (.num 1000) 10 6 false).1 =
        String.mk (stripTrailingDigits (fmtF (1000 : ℚ) 6) 6 ++
          ' ' :: '(' :: (commafWithDigits (1000 : ℚ) 6 ++ [')'])) := by
  have hne : commafWithDigits (1000 : ℚ) 6 ≠
      stripTrailingDigits (fmtF (1000 : ℚ) 6) 6 := by
    have habs : |(1000 : ℚ)| = 1000 := abs_of_pos (by norm_num)
    simp only [commafWithDigits, habs, fmtF_1000]
    decide
  exact ⟨hne, (C9_grouped_rendering.1 1000 6).1 hne⟩

/-- C6: numeric-literal base detection, before the base-10 fallback:
`0b`/`0B` selects base 2, `0x`/`0X` selects base 16, a leading `0` or
`o` not followed by `.` selects base 8, and every other token is parsed
as a decimal literal with an optional leading `-` and fractional part —
so `"0.25"` parses as the decimal 0.25 (and not as an octal literal). -/
theorem C6_base_detection :
    (∀ s : List Char,
        (startsWithL ['0', 'b'] s ∨ startsWithL ['0', 'B'] s) ∧
            2 < s.length →
        atofL s = match parseUintCore 2 (s.drop 2) with
          | some n => .ok (.num n)
          | none => .error "invalid binary literal") ∧
      (∀ s : List Char,
        ¬((startsWithL ['0', 'b'] s ∨ startsWithL ['0', 'B'] s) ∧
            2 < s.length) →
        (startsWithL ['0', 'x'] s ∨ startsWithL ['0', 'X'] s) ∧
            2 < s.length →
        atofL s = match parseUintCore 16 (s.drop 2) with
          | some n => .ok (.num n)
          | none => .error "invalid hexadecimal literal") ∧
      (∀ s : List Char,
        ¬((startsWithL ['0', 'b'] s ∨ startsWithL ['0', 'B'] s) ∧
            2 < s.length) →
        ¬((startsWithL ['0', 'x'] s ∨ startsWithL ['0', 'X'] s) ∧
            2 < s.length) →
        (startsWithL ['0'] s ∨ startsWithL ['o'] s) ∧ 1 < s.length ∧
            s.getD 1 ' ' ≠ '.' →
        atofL s = match parseUintCore 8 (s.drop 1) with
          | some n => .ok (.num n)
          | none => .error "invalid octal literal") ∧
      (∀ s : List Char,
        ¬((startsWithL ['0', 'b'] s ∨ startsWithL ['0', 'B'] s) ∧
            2 < s.length) →
        ¬((startsWithL ['0', 'x'] s ∨ startsWithL ['0', 'X'] s) ∧
            2 < s.length) →
        ¬((startsWithL ['0'] s ∨ startsWithL ['o'] s) ∧ 1 < s.length ∧
            s.getD 1 ' ' ≠ '.') →
        atofL s = match parseDecL s with
          | some q => .ok (.num q)
          | none => .error "not a number") ∧
      atof "0b101" = .ok (.num 5) ∧
      atof "0B101" = .ok (.num 5) ∧
      atof "0x1f" = .ok (.num 31) ∧
      atof "0X1F" = .ok (.num 31) ∧
      atof "017" = .ok (.num 15) ∧
      atof "o17" = .ok (.num 15) ∧
      atof "0.25" = .ok (.num (1 / 4)) ∧
      atof "-3.5" = .ok (.num (-(7 / 2))) := by
  refine ⟨?_, ?_, ?_, ?_, ?_, ?_, ?_, ?_, ?_, ?_, ?_, ?_⟩
  · intro s h1
    rw [atofL, if_pos h1]
  · intro s h1 h2
    rw [atofL, if_neg h1, if_pos h2]
  · intro s h1 h2 h3
    rw [atofL, if_neg h1, if_neg h2, if_pos h3]
  · intro s h1 h2 h3
    rw [atofL, if_neg h1, if_neg h2, if_neg h3]
  · decide
  · decide
  · decide
  · decide
  · decide
  · decide
  · have hp : parseDecL "0.25".data = some (1 / 4) := by
      simp [parseDecL, decDigitsVal, isDigit09]
      norm_num
    rw [atof, atofL, if_neg (by decide), if_neg (by decide),
      if_neg (by decide), hp]
  · have hp : parseDecL "-3.5".data = some (-(7 / 2)) := by
      simp [parseDecL, decDigitsVal, isDigit09]
      norm_num
    rw [atof, atofL, if_neg (by decide), if_neg (by decide),
      if_neg (by decide), hp]

/-- C6 witness: the binary branch applied to the literal `0b101`. -/
theorem C6_base_detection_witness :
    ((startsWithL ['0', 'b'] "0b101".data ∨
          startsWithL ['0', 'B'] "0b101".data) ∧ 2 < "0b101".data.length) ∧
      atofL "0b101".data = (match parseUintCore 2 ("0b101".data.drop 2) with
        | some n => .ok (.num n)
        | none => .error "invalid binary literal") :=
  ⟨by decide, C6_base_detection.1 "0b101".data (by decide)⟩

/-! ## Round-trip lemmas for base formatting and parsing -/

theorem natToBaseCore_eq_digits (b : Nat) (hb : 2 ≤ b) (n : Nat) :
    natToBaseCore b n = (Nat.digits b n).reverse := by
  induction n using Nat.strong_induction_on with
  | _ n ih =>
    unfold natToBaseCore
    rw [dif_neg (by omega)]
    by_cases h0 : n = 0
    · rw [dif_pos h0, h0]
      simp
    · rw [dif_neg h0]
      rw [ih (n / b) (Nat.div_lt_self (by omega) (by omega))]
      rw [Nat.digits_def' (by omega : 1 < b) (by omega : 0 < n)]
      simp

theorem natToBaseCore_ne_nil (b : Nat) (hb : 2 ≤ b) (n : Nat)
    (h0 : n ≠ 0) : natToBaseCore b n ≠ [] := by
  unfold natToBaseCore
  rw [dif_neg (by omega), dif_neg h0]
  simp

theorem mem_natToBaseCore_lt (b : Nat) (hb : 2 ≤ b) (n d : Nat)
    (hd : d ∈ natToBaseCore b n) : d < b := by
  rw [natToBaseCore_eq_digits b hb] at hd
  exact Nat.digits_lt_base (by omega) (List.mem_reverse.mp hd)

theorem foldr_eq_ofDigits (b : Nat) (l : List Nat) :
    l.foldr (fun x y => y * b + x) 0 = Nat.ofDigits b l := by
  induction l with
  | nil => simp [Nat.ofDigits]
  | cons d tl ih =>
    rw [List.foldr_cons, ih, Nat.ofDigits_cons]
    ring

theorem foldl_natToBaseCore (b : Nat) (hb : 2 ≤ b) (n : Nat) :
    (natToBaseCore b n).foldl (fun a d => a * b + d) 0 = n := by
  rw [natToBaseCore_eq_digits b hb, List.foldl_reverse]
  have := foldr_eq_ofDigits b (Nat.digits b n)
  calc (Nat.digits b n).foldr (fun x y => (fun a d => a * b + d) y x) 0
      = (Nat.digits b n).foldr (fun x y => y * b + x) 0 := rfl
    _ = Nat.ofDigits b (Nat.digits b n) := foldr_eq_ofDigits b _
    _ = n := Nat.ofDigits_digits b n

theorem parseDigitChar_digitChar :
    ∀ b : Nat, b ≤ 16 → ∀ d : Nat, d < b →
      parseDigitChar b (digitChar d) = some d := by
  decide

theorem foldl_parse_map (b : Nat) (hb16 : b ≤ 16) (ds : List Nat)
    (hds : ∀ d ∈ ds, d < b) :
    ∀ a0 : Nat,
      (ds.map digitChar).foldl
        (fun acc c => acc.bind fun a => (parseDigitChar b c).map fun d => a * b + d)
        (some a0) = some (ds.foldl (fun a d => a * b + d) a0) := by
  induction ds with
  | nil => intro a0; rfl
  | cons d tl ih =>
    intro a0
    have hd : d < b := hds d (List.mem_cons_self d tl)
    have hpd : parseDigitChar b (digitChar d) = some d :=
      parseDigitChar_digitChar b hb16 d hd
    have hstep : ((some a0).bind fun a => (parseDigitChar b (digitChar d)).map
        fun x => a * b + x) = some (a0 * b + d) := by
      rw [hpd]
      rfl
    rw [List.map_cons, List.foldl_cons, hstep, List.foldl_cons]
    exact ih (fun x hx => hds x (List.mem_cons_of_mem d hx)) (a0 * b + d)

theorem parseUintCore_natToBase (b : Nat) (hb : b = 2 ∨ b = 8 ∨ b = 16)
    (v : Nat) (hv : v < 2 ^ 64) :
    parseUintCore b (natToBase b v) = some v := by
  have hb2 : 2 ≤ b := by rcases hb with h | h | h <;> omega
  have hb16 : b ≤ 16 := by rcases hb with h | h | h <;> omega
  by_cases h0 : v = 0
  · subst h0
    rcases hb with h | h | h <;> subst h <;> decide
  · rw [natToBase, if_neg h0, parseUintCore,
      if_neg (by
        intro hmap
        exact natToBaseCore_ne_nil b hb2 v h0 (List.map_eq_nil.mp hmap))]
    rw [foldl_parse_map b hb16 (natToBaseCore b v)
      (fun d hd => mem_natToBaseCore_lt b hb2 v d hd) 0]
    rw [foldl_natToBaseCore b hb2 v]
    dsimp only
    rw [if_pos hv]

theorem natToBase_ne_nil (b v : Nat) (hb : 2 ≤ b) :
    natToBase b v ≠ [] := by
  rw [natToBase]
  by_cases h0 : v = 0
  · rw [if_pos h0]
    simp
  · rw [if_neg h0]
    intro hmap
    exact natToBaseCore_ne_nil b hb v h0 (List.map_eq_nil.mp hmap)

theorem formatNumber_num_natCast (v : Nat) (hv : v < 2 ^ 64)
    (base decimals : Nat) (single : Bool)
    (hbase : base = 2 ∨ base = 8 ∨ base = 16) :
    (formatNumber (.num (v : ℚ)) base decimals single).1 =
      String.mk (basePrefixL base ++ natToBase base v) := by
  have hb : base ≠ 10 := by rcases hbase with h | h | h <;> omega
  have hneg : ¬ ((v : ℚ) < 0) := not_lt.mpr (by positivity)
  have hden : ((v : ℚ)).den = 1 := Rat.den_natCast v
  have hu : uint64OfQ (v : ℚ) = some v := by
    unfold uint64OfQ
    rw [if_pos ⟨hden, by simp [Rat.num_natCast], by
      rw [Rat.num_natCast]
      exact_mod_cast hv⟩]
    simp [Rat.num_natCast]
  simp only [formatNumber]
  rw [if_pos hb]
  rw [if_neg hneg, if_neg hneg]
  rw [if_neg (by rw [hden]; omega)]
  rw [if_neg (by rw [hden]; omega)]
  rw [hu]
  rcases hbase with h | h | h <;> subst base <;>
    simp [basePrefixL, List.append_assoc]

theorem digitChar8_safe :
    ∀ d : Nat, d < 8 → digitChar d ≠ 'b' ∧ digitChar d ≠ 'B' ∧
      digitChar d ≠ 'x' ∧ digitChar d ≠ 'X' ∧ digitChar d ≠ '.' := by
  decide

theorem mem_natToBase8 (v : Nat) (c : Char) (hc : c ∈ natToBase 8 v) :
    ∃ d, d < 8 ∧ c = digitChar d := by
  rw [natToBase] at hc
  by_cases h0 : v = 0
  · rw [if_pos h0] at hc
    exact ⟨0, by omega, by simpa using hc⟩
  · rw [if_neg h0] at hc
    obtain ⟨d, hd, rfl⟩ := List.mem_map.mp hc
    exact ⟨d, mem_natToBaseCore_lt 8 (by omega) v d hd, rfl⟩

theorem atofL_bin_roundtrip (v : Nat) (hv : v < 2 ^ 64) :
    atofL ('0' :: 'b' :: natToBase 2 v) = .ok (.num (v : ℚ)) := by
  rw [atofL, if_pos ⟨Or.inl (by simp [startsWithL, List.isPrefixOf]), by
    have := (List.length_pos.mpr (natToBase_ne_nil 2 v (by omega)))
    simp
    omega⟩]
  rw [show ('0' :: 'b' :: natToBase 2 v).drop 2 = natToBase 2 v from rfl]
  rw [parseUintCore_natToBase 2 (Or.inl rfl) v hv]

theorem atofL_hex_roundtrip (v : Nat) (hv : v < 2 ^ 64) :
    atofL ('0' :: 'x' :: natToBase 16 v) = .ok (.num (v : ℚ)) := by
  rw [atofL,
    if_neg (by
      intro hcon
      rcases hcon.1 with h | h <;> simp [startsWithL, List.isPrefixOf] at h),
    if_pos ⟨Or.inl (by simp [startsWithL, List.isPrefixOf]), by
      have := (List.length_pos.mpr (natToBase_ne_nil 16 v (by omega)))
      simp
      omega⟩]
  rw [show ('0' :: 'x' :: natToBase 16 v).drop 2 = natToBase 16 v from rfl]
  rw [parseUintCore_natToBase 16 (Or.inr (Or.inr rfl)) v hv]

theorem atofL_oct_roundtrip (v : Nat) (hv : v < 2 ^ 64) :
    atofL ('0' :: natToBase 8 v) = .ok (.num (v : ℚ)) := by
  rcases hds : natToBase 8 v with _ | ⟨c, tl⟩
  · exact absurd hds (natToBase_ne_nil 8 v (by omega))
  · have hc : ∃ d, d < 8 ∧ c = digitChar d := by
      apply mem_natToBase8 v c
      rw [hds]
      exact List.mem_cons_self c tl
    obtain ⟨d, hd8, rfl⟩ := hc
    have hsafe := digitChar8_safe d hd8
    rw [atofL,
      if_neg (by
        intro hcon
        rcases hcon.1 with h | h <;>
          simp [startsWithL, List.isPrefixOf, beq_iff_eq] at h
        · exact hsafe.1 h.symm
        · exact hsafe.2.1 h.symm),
      if_neg (by
        intro hcon
        rcases hcon.1 with h | h <;>
          simp [startsWithL, List.isPrefixOf, beq_iff_eq] at h
        · exact hsafe.2.2.1 h.symm
        · exact hsafe.2.2.2.1 h.symm),
      if_pos ⟨Or.inl (by simp [startsWithL, List.isPrefixOf]), by simp,
        fun hdot => hsafe.2.2.2.2 hdot⟩]
    rw [show ('0' :: digitChar d :: tl).drop 1 = digitChar d :: tl from rfl]
    rw [← hds, parseUintCore_natToBase 8 (Or.inr (Or.inl rfl)) v hv]

/-- C4: round-trip base formatting — formatting any unsigned integral
value `v ≤ 2^64 − 1` in base 2, 8 or 16 produces the prefixed literal
(`0b…`, `0…`, `0x…`) and re-parsing that literal with the
numeric-literal parser yields `v` again. -/
theorem C4_roundtrip_base_formatting (v : Nat) (hv : v ≤ 2 ^ 64 - 1) :
    atof (formatNumber (.num (v : ℚ)) 2 6 false).1 = .ok (.num (v : ℚ)) ∧
      atof (formatNumber (.num (v : ℚ)) 8 6 false).1 = .ok (.num (v : ℚ)) ∧
      atof (formatNumber (.num (v : ℚ)) 16 6 false).1 =
        .ok (.num (v : ℚ)) := by
  have hv' : v < 2 ^ 64 := by omega
  refine ⟨?_, ?_, ?_⟩
  · rw [formatNumber_num_natCast v hv' 2 6 false (Or.inl rfl)]
    rw [show atof (String.mk (basePrefixL 2 ++ natToBase 2 v)) =
      atofL ('0' :: 'b' :: natToBase 2 v) from rfl]
    exact atofL_bin_roundtrip v hv'
  · rw [formatNumber_num_natCast v hv' 8 6 false (Or.inr (Or.inl rfl))]
    rw [show atof (String.mk (basePrefixL 8 ++ natToBase 8 v)) =
      atofL ('0' :: natToBase 8 v) from rfl]
    exact atofL_oct_roundtrip v hv'
  · rw [formatNumber_num_natCast v hv' 16 6 false (Or.inr (Or.inr rfl))]
    rw [show atof (String.mk (basePrefixL 16 ++ natToBase 16 v)) =
      atofL ('0' :: 'x' :: natToBase 16 v) from rfl]
    exact atofL_hex_roundtrip v hv'

/-- C4 witness: the round trip at the concrete value 255. -/
theorem C4_roundtrip_base_formatting_witness :
    (255 : Nat) ≤ 2 ^ 64 - 1 ∧
      atof (formatNumber (.num ((255 : Nat) : ℚ)) 2 6 false).1 =
        .ok (.num ((255 : Nat) : ℚ)) :=
  ⟨by norm_num, (C4_roundtrip_base_formatting 255 (by norm_num)).1⟩

theorem roundSig_eval (x : ℚ) (z : ℤ) (h : x = (z : ℚ))
    (hb : z.natAbs < 10 ^ 34) : roundSig x = (z : ℚ) := by
  rw [h]
  exact roundSig_intCast_small z hb

theorem operation_div (l : List Big) (y x : Big) (s : stackType)
    (hs : s.list = l ++ [y, x]) :
    operation opDiv s = ({ s with list := l ++ [quoB y x] }, none) := by
  have hlen : s.list.length = l.length + 2 := by
    rw [hs]
    simp
  have hargs : operationArgs s = x :: y :: l.reverse := by
    rw [operationArgs, hs]
    simp
  have hfn : opDiv.fn (operationArgs s) s.list =
      (s.list, .ok ([quoB y x], 2)) := by
    rw [hargs]
    rfl
  simp only [operation]
  rw [if_neg (by
    show ¬ (s.list.length < opDiv.numArgs)
    have : opDiv.numArgs = 2 := rfl
    omega)]
  rw [hfn]
  dsimp only
  rw [if_neg (by
    push_neg
    intro _
    omega)]
  have htake : s.list.take (s.list.length - 2) = l := by
    rw [hs]
    have hlen2 : (l ++ [y, x]).length - 2 = l.length := by
      simp
    rw [hlen2]
    exact List.take_left l [y, x]
  rw [htake]

theorem atofL_10 : atofL "10".data = .ok (.num 10) := by
  rw [atofL, if_neg (by decide), if_neg (by decide), if_neg (by decide)]
  have hp : parseDecL "10".data = some 10 := by
    simp [parseDecL, decDigitsVal, isDigit09]
  rw [hp]

theorem atofL_2 : atofL "2".data = .ok (.num 2) := by
  rw [atofL, if_neg (by decide), if_neg (by decide), if_neg (by decide)]
  have hp : parseDecL "2".data = some 2 := by
    simp [parseDecL, decDigitsVal, isDigit09]
  rw [hp]

theorem quoB_10_2 : quoB (.num 10) (.num 2) = .num 5 := by
  rw [quoB]
  rw [if_neg (by norm_num)]
  rw [roundSig_eval ((10 : ℚ) / 2) 5 (by norm_num) (by norm_num)]
  norm_num

/-- C1: the binary `/` divides y (second from top) by x (top): for
every stack ending in `[y, x]` the dispatcher replaces those two cells
with `quoB y x` — the embedded `ctx.Quo(big(), a[1], a[0])` — and
evaluating the line `10 2 /` on an empty stack leaves 5 on top (not
0.2). -/
theorem C1_division_order :
    (∀ (l : List Big) (y x : Big) (s : stackType), s.list = l ++ [y, x] →
        operation opDiv s = ({ s with list := l ++ [quoB y x] }, none)) ∧
      calcLine (opmapFind opsEmbedded) ⟨[], []⟩ ["10", "2", "/"] =
        (⟨[Big.num 5], []⟩, none) := by
  refine ⟨operation_div, ?_⟩
  rw [calcLine]
  rw [runTokens]
  rw [show opmapFind opsEmbedded "10" = none from rfl]
  dsimp only
  rw [if_neg (by decide), if_neg (by decide), atofL_10]
  dsimp only
  rw [runTokens]
  rw [show opmapFind opsEmbedded "2" = none from rfl]
  dsimp only
  rw [if_neg (by decide), if_neg (by decide), atofL_2]
  dsimp only
  rw [runTokens]
  rw [show opmapFind opsEmbedded "/" = some opDiv from rfl]
  dsimp only
  rw [operation_div [] (.num 10) (.num 2) _ rfl]
  dsimp only
  rw [runTokens]
  rw [quoB_10_2]
  rfl

/-- C1 witness: the general clause applied to the two-element stack
`[10, 2]`. -/
theorem C1_division_order_witness :
    ([Big.num 10, Big.num 2] : List Big) = [] ++ [Big.num 10, Big.num 2] ∧
      operation opDiv ⟨[Big.num 10, Big.num 2], []⟩ =
        (⟨[] ++ [quoB (Big.num 10) (Big.num 2)], []⟩, none) :=
  ⟨rfl, C1_division_order.1 [] (.num 10) (.num 2)
    ⟨[Big.num 10, Big.num 2], []⟩ rfl⟩

theorem facLoop_5 : facLoop 5 = 120 := by
  show roundSig (roundSig (roundSig (roundSig (roundSig
      ((1 : ℚ) * (((0 : ℕ) : ℚ) + 1)) * (((1 : ℕ) : ℚ) + 1)) *
      (((2 : ℕ) : ℚ) + 1)) * (((3 : ℕ) : ℚ) + 1)) * (((4 : ℕ) : ℚ) + 1)) = 120
  rw [show ((1 : ℚ) * (((0 : ℕ) : ℚ) + 1)) = ((1 : ℤ) : ℚ) by push_cast; ring,
    roundSig_intCast_small 1 (by norm_num)]
  rw [show (((1 : ℤ) : ℚ) * (((1 : ℕ) : ℚ) + 1)) = ((2 : ℤ) : ℚ) by push_cast; ring,
    roundSig_intCast_small 2 (by norm_num)]
  rw [show (((2 : ℤ) : ℚ) * (((2 : ℕ) : ℚ) + 1)) = ((6 : ℤ) : ℚ) by push_cast; ring,
    roundSig_intCast_small 6 (by norm_num)]
  rw [show (((6 : ℤ) : ℚ) * (((3 : ℕ) : ℚ) + 1)) = ((24 : ℤ) : ℚ) by push_cast; ring,
    roundSig_intCast_small 24 (by norm_num)]
  rw [show (((24 : ℤ) : ℚ) * (((4 : ℕ) : ℚ) + 1)) = ((120 : ℤ) : ℚ) by push_cast; ring,
    roundSig_intCast_small 120 (by norm_num)]
  norm_num

theorem atofL_5 : atofL "5".data = .ok (.num 5) := by
  rw [atofL, if_neg (by decide), if_neg (by decide), if_neg (by decide)]
  have hp : parseDecL "5".data = some 5 := by
    simp [parseDecL, decDigitsVal, isDigit09]
  rw [hp]

theorem floorB_5 : floorB (.num 5) = .num 5 := by
  rw [floorB]
  rw [show ((⌊(5 : ℚ)⌋ : ℤ) : ℚ) = ((5 : ℤ) : ℚ) by norm_num]
  rw [roundSig_intCast_small 5 (by norm_num)]
  norm_num

theorem floorB_neg1 : floorB (.num (-1)) = .num (-1) := by
  rw [floorB]
  rw [show ((⌊(-1 : ℚ)⌋ : ℤ) : ℚ) = ((-1 : ℤ) : ℚ) by norm_num]
  rw [roundSig_intCast_small (-1) (by norm_num)]
  norm_num

theorem opFac_fn_5 : opFac.fn (operationArgs ⟨[Big.num 5], []⟩) [Big.num 5] =
    ([Big.num 5], .ok ([Big.num 120], 1)) := by
  show opFac.fn [Big.num 5] [Big.num 5] = _
  simp only [opFac]
  rw [show ([Big.num 5].getD 0 Big.nan) = Big.num 5 from rfl]
  rw [floorB_5]
  dsimp only
  rw [if_neg (by norm_num : ¬ (5 : ℚ) < 0)]
  rw [show Int.toNat ⌊(5 : ℚ)⌋ = 5 by
    rw [show (⌊(5 : ℚ)⌋ : ℤ) = 5 by norm_num]
    decide]
  rw [facLoop_5]

theorem operation_fac_5 :
    operation opFac ⟨[Big.num 5], []⟩ = (⟨[Big.num 120], []⟩, none) := by
  simp only [operation]
  rw [if_neg (by decide)]
  rw [opFac_fn_5]
  dsimp only
  rw [if_neg (by decide)]
  rfl

theorem opFac_fn_neg1 :
    opFac.fn (operationArgs ⟨[Big.num (-1)], []⟩) [Big.num (-1)] =
      ([Big.num (-1)], .error "factorial requires a positive number") := by
  show opFac.fn [Big.num (-1)] [Big.num (-1)] = _
  simp only [opFac]
  rw [show ([Big.num (-1)].getD 0 Big.nan) = Big.num (-1) from rfl]
  rw [floorB_neg1]
  dsimp only
  rw [if_pos (by norm_num : (-1 : ℚ) < 0)]

theorem operation_fac_neg1 :
    operation opFac ⟨[Big.num (-1)], []⟩ =
      (⟨[Big.num (-1)], []⟩, some "factorial requires a positive number") := by
  simp only [operation]
  rw [if_neg (by decide)]
  rw [opFac_fn_neg1]

/-- C7: `5 fac` evaluates to 120, and applying `fac` to the stack
holding the already-pushed operand −1 returns the error
`factorial requires a positive number` while leaving that stack
unchanged (the dispatcher returns before popping anything on a handler
error). -/
theorem C7_factorial :
    calcLine (opmapFind opsEmbedded) ⟨[], []⟩ ["5", "fac"] =
        (⟨[Big.num 120], []⟩, none) ∧
      operation opFac ⟨[Big.num (-1)], []⟩ =
        (⟨[Big.num (-1)], []⟩, some "factorial requires a positive number") := by
  refine ⟨?_, operation_fac_neg1⟩
  rw [calcLine, runTokens]
  rw [show opmapFind opsEmbedded "5" = none from rfl]
  dsimp only
  rw [if_neg (by decide), if_neg (by decide), atofL_5]
  dsimp only
  rw [runTokens]
  rw [show opmapFind opsEmbedded "fac" = some opFac from rfl]
  dsimp only
  rw [show (⟨[], []⟩ : stackType).save.push [Big.num 5] =
    (⟨[Big.num 5], []⟩ : stackType) from rfl]
  rw [operation_fac_5]
  dsimp only
  rw [runTokens]
